import Mathlib

/-! Verification development for the latec-app repository. The client-side SSE
accumulator `streamSSE` (client/src/components/nav-secondary.tsx), the
Clear All handler, the PDF localStorage cache and the predefined theme table
are embedded as executable Lean definitions over `List Char` strings; the
backend chat store, whose server code is not part of the repository snapshot,
is modelled from the spec. -/

namespace LatecApp

deriving instance DecidableEq for Except

/-! ## JavaScript string helpers -/

/-- Whitespace recognised by JavaScript `String.prototype.trim`
(space, tab, LF, VT, FF, CR, NBSP, BOM, line and paragraph separators). -/
def jsWhitespace (c : Char) : Bool :=
  c = ' ' || c = '\t' || c = '\n' || c = '\x0b' || c = '\x0c' || c = '\r' ||
  c = '\u00A0' || c = '\uFEFF' || c = '\u2028' || c = '\u2029'

/-- JavaScript `s.trim()` on a code-point list: strip whitespace at both ends. -/
def jsTrim (s : List Char) : List Char :=
  ((s.dropWhile jsWhitespace).reverse.dropWhile jsWhitespace).reverse

/-- JavaScript `o || d` for an optional string field: the default is used when
the field is absent or the empty string (both falsy). -/
def jsOrDefault (o : Option (List Char)) (d : List Char) : List Char :=
  match o with
  | some s => if s = [] then d else s
  | none => d

/-! ## SSE accumulator data model (streamSSE, nav-secondary.tsx lines 398-488) -/

/-- Result of `JSON.parse` on one SSE `data: ` payload, restricted to the
fields `streamSSE` reads: `event.type`, `event.error`, `event.delta`. -/
structure SSEEvent where
  type : List Char
  error : Option (List Char) := none
  delta : Option (List Char) := none
deriving DecidableEq

/-- The `JSON.parse` platform call, abstracted: on success a structured event,
on failure the thrown error's `message` string. -/
abbrev ParseFn := List Char → Except (List Char) SSEEvent

/-- Mutable locals of `streamSSE`'s read loop: `buffer`, `lastUpdate`,
`accumulated`, plus the observable list of `onDelta` callback arguments and a
counter of `Date.now()` samples taken so far. -/
structure SSEState where
  buffer : List Char
  lastUpdate : Int
  accumulated : List Char
  calls : List (List Char)
  samples : Nat
deriving DecidableEq

/-- Initial loop state: `buffer = ""`, `lastUpdate = 0`, `accumulated = ""`. -/
def initSSEState : SSEState := ⟨[], 0, [], [], 0⟩

/-- The 50ms rate limit constant `UPDATE_INTERVAL`. -/
def UPDATE_INTERVAL : Int := 50

/-- Outcome of running part of the loop body: normal continuation, or a thrown
error (carrying the JS error message) together with the state at the throw. -/
inductive SSERun where
  | ok (st : SSEState)
  | thrown (msg : List Char) (st : SSEState)
deriving DecidableEq

/-- The `"data: "` line marker. -/
def dataMarker : List Char := "data: ".toList

/-- The `"[DONE]"` end-of-stream sentinel payload. -/
def doneMarker : List Char := "[DONE]".toList

/-- The catch-clause classification (lines 468-475): a caught error is
rethrown iff its message starts with `"Unknown error"` or does not start with
`"Unexpected"`; otherwise the line is skipped. -/
def rethrows (m : List Char) : Bool :=
  "Unknown error".toList.isPrefixOf m || !("Unexpected".toList.isPrefixOf m)

/-- One iteration of `for (const line of lines)` (lines 445-478): filter
non-`data: ` lines, drop empty and `[DONE]` payloads, parse the payload,
raise on explicit error events, append text deltas under the 50ms rate
limiter, and classify caught errors via `rethrows`. -/
def processLine (parse : ParseFn) (times : Nat → Int) (st : SSEState)
    (line : List Char) : SSERun :=
  if jsTrim line = [] ∨ ¬ dataMarker.isPrefixOf line then .ok st
  else if jsTrim (line.drop 6) = [] ∨ jsTrim (line.drop 6) = doneMarker then
    .ok st
  else
    match parse (jsTrim (line.drop 6)) with
    | .error m => if rethrows m then .thrown m st else .ok st
    | .ok ev =>
      if ev.type = "error".toList then
        if rethrows (jsOrDefault ev.error "Unknown error from server".toList)
        then .thrown (jsOrDefault ev.error "Unknown error from server".toList) st
        else .ok st
      else if ev.type = "response.output_text.delta".toList ∧
          ev.delta.getD [] ≠ [] then
        if UPDATE_INTERVAL ≤ times st.samples - st.lastUpdate then
          .ok { st with accumulated := st.accumulated ++ ev.delta.getD [],
                        lastUpdate := times st.samples,
                        calls := st.calls ++ [st.accumulated ++ ev.delta.getD []],
                        samples := st.samples + 1 }
        else
          .ok { st with accumulated := st.accumulated ++ ev.delta.getD [],
                        samples := st.samples + 1 }
      else .ok st

/-- Run `processLine` over a list of complete lines, short-circuiting on a
thrown error. -/
def processLines (parse : ParseFn) (times : Nat → Int) (st : SSEState) :
    List (List Char) → SSERun
  | [] => .ok st
  | l :: ls =>
    match processLine parse times st l with
    | .ok st' => processLines parse times st' ls
    | .thrown m st' => .thrown m st'

/-- JavaScript `buffer.split("\n")` on a code-point list: the list of
newline-separated segments, always nonempty, keeping empty segments. -/
def splitNl : List Char → List (List Char)
  | [] => [[]]
  | c :: cs =>
    if c = '\n' then [] :: splitNl cs
    else (c :: (splitNl cs).headI) :: (splitNl cs).tail

/-- One iteration of the read loop (lines 437-479): append the decoded chunk
to `buffer`, split on newlines, keep the trailing fragment in `buffer`
(`buffer = lines.pop() || ""`), and process the complete lines. -/
def processChunk (parse : ParseFn) (times : Nat → Int) (st : SSEState)
    (chunk : List Char) : SSERun :=
  processLines parse times
    { st with buffer := (splitNl (st.buffer ++ chunk)).getLastD [] }
    (splitNl (st.buffer ++ chunk)).dropLast

/-- Run the read loop over the whole sequence of decoded chunks delivered by
`reader.read()`, short-circuiting on a thrown error. -/
def processChunks (parse : ParseFn) (times : Nat → Int) (st : SSEState) :
    List (List Char) → SSERun
  | [] => .ok st
  | c :: cs =>
    match processChunk parse times st c with
    | .ok st' => processChunks parse times st' cs
    | .thrown m st' => .thrown m st'

/-- Observable outcome of `streamSSE` past the HTTP check: the full sequence
of `onDelta` arguments, the final accumulated text, and the propagated error
message if one was thrown. -/
structure SSEOutput where
  calls : List (List Char)
  accumulated : List Char
  outcome : Option (List Char)
deriving DecidableEq

/-- The `finally` block (lines 480-485): flush `accumulated` through
`onDelta` once more iff it is nonempty. -/
def flushCalls (st : SSEState) : List (List Char) :=
  st.calls ++ (if st.accumulated = [] then [] else [st.accumulated])

/-- The try/finally body of `streamSSE` (lines 436-485) over a list of decoded
chunks: run the read loop, then flush, propagating any thrown error. -/
def streamSSEBody (parse : ParseFn) (times : Nat → Int)
    (chunks : List (List Char)) : SSEOutput :=
  match processChunks parse times initSSEState chunks with
  | .ok st => ⟨flushCalls st, st.accumulated, none⟩
  | .thrown m st => ⟨flushCalls st, st.accumulated, some m⟩

/-- Decimal digit characters, as printed by JavaScript number-to-string
conversion. -/
def digitChar (n : Nat) : Char :=
  match n with
  | 0 => '0' | 1 => '1' | 2 => '2' | 3 => '3' | 4 => '4'
  | 5 => '5' | 6 => '6' | 7 => '7' | 8 => '8' | _ => '9'

/-- Fuel-indexed digit loop for decimal rendering; any fuel above the value
itself suffices. -/
def natToCharsAux : Nat → Nat → List Char
  | 0, _ => []
  | fuel + 1, n =>
    if n < 10 then [digitChar n]
    else natToCharsAux fuel (n / 10) ++ [digitChar (n % 10)]

/-- Decimal rendering of a natural number, as JavaScript prints an integral
`number` (used by the template literal for `response.status` and by
`JSON.stringify` for an integral `size`). -/
def natToChars (n : Nat) : List Char := natToCharsAux (n + 1) n

/-- The `fetch` response as `streamSSE` observes it: `ok`, `status`, the error
body text, and the optional streamed body as decoded chunks. -/
structure HttpResponse where
  ok : Bool
  status : Nat
  errorText : List Char
  body : Option (List (List Char))
deriving DecidableEq

/-- The message of the error thrown on a non-2xx status (line 424). -/
def apiErrorMsg (resp : HttpResponse) : List Char :=
  "API returned ".toList ++ natToChars resp.status ++ ": ".toList ++ resp.errorText

/-- Whole-function model of `streamSSE` (lines 398-488): non-ok responses
throw before any read; a missing body throws; otherwise the try/finally body
runs over the chunks. -/
def streamSSE (resp : HttpResponse) (parse : ParseFn) (times : Nat → Int) :
    SSEOutput :=
  if resp.ok = false then ⟨[], [], some (apiErrorMsg resp)⟩
  else
    match resp.body with
    | none => ⟨[], [], some ("No response body".toList)⟩
    | some chunks => streamSSEBody parse times chunks

/-- Final component state set by the stream caller. -/
structure AnalyzeOutcome where
  analysisResult : List Char
  analysisError : List Char
  isAnalyzing : Bool
deriving DecidableEq

/-- Model of the caller `handleAnalyze` (lines 493-544), identical in shape to
`handleFindImpact` (lines 549-582): each `onDelta` call overwrites the result
state, a thrown error message is stored in the error state, and the loading
flag is cleared in the `finally`. The `AbortError` early return is not
modelled (no abort is delivered in this model). -/
def handleAnalyzeModel (resp : HttpResponse) (parse : ParseFn)
    (times : Nat → Int) : AnalyzeOutcome :=
  let out := streamSSE resp parse times
  let finalText := out.calls.getLast?.getD []
  match out.outcome with
  | none => ⟨finalText, [], false⟩
  | some m => ⟨finalText, m, false⟩

/-! ## Projections used to compare runs that differ only in `buffer`
(the trailing fragment kept in `buffer` is never re-read after a throw) -/

/-- All components of the loop state except `buffer`. -/
def SSEState.core (st : SSEState) : Int × List Char × List (List Char) × Nat :=
  (st.lastUpdate, st.accumulated, st.calls, st.samples)

/-- Replace the `buffer` component. -/
def SSEState.withBuffer (st : SSEState) (b : List Char) : SSEState :=
  { st with buffer := b }

/-- Observable part of a run outcome: everything except the `buffer` of the
carried state. -/
def SSERun.core : SSERun →
    (Int × List Char × List (List Char) × Nat) ⊕
      (List Char × (Int × List Char × List (List Char) × Nat))
  | .ok st => .inl st.core
  | .thrown m st => .inr (m, st.core)

/-- Replace the `buffer` of the carried state. -/
def SSERun.withBuffer : SSERun → List Char → SSERun
  | .ok st, b => .ok (st.withBuffer b)
  | .thrown m st, b => .thrown m (st.withBuffer b)

/-! ## Concrete test fixtures (payloads, a concrete parse function, a clock) -/

/-- Fixture payload: a text-delta event carrying `"Hello"`. -/
def deltaPayload1 : List Char :=
  "\x7b\"type\":\"response.output_text.delta\",\"delta\":\"Hello\"\x7d".toList

/-- Fixture payload: a text-delta event carrying `", world"`. -/
def deltaPayload2 : List Char :=
  "\x7b\"type\":\"response.output_text.delta\",\"delta\":\", world\"\x7d".toList

/-- Fixture payload: an explicit error event with message `"boom"`. -/
def errorPayloadBoom : List Char :=
  "\x7b\"type\":\"error\",\"error\":\"boom\"\x7d".toList

/-- Fixture payload: an explicit error event whose message starts with
`"Unexpected"`. -/
def errorPayloadUnexpected : List Char :=
  "\x7b\"type\":\"error\",\"error\":\"Unexpected upstream failure\"\x7d".toList

/-- Concrete stand-in for `JSON.parse` giving the real parse of the four
fixture payloads above; every other input fails with a SyntaxError-style
message starting with `"Unexpected"`, as V8 produces on invalid JSON. -/
def parseFixture : ParseFn := fun s =>
  if s = deltaPayload1 then
    .ok ⟨"response.output_text.delta".toList, none, some "Hello".toList⟩
  else if s = deltaPayload2 then
    .ok ⟨"response.output_text.delta".toList, none, some ", world".toList⟩
  else if s = errorPayloadBoom then
    .ok ⟨"error".toList, some "boom".toList, none⟩
  else if s = errorPayloadUnexpected then
    .ok ⟨"error".toList, some "Unexpected upstream failure".toList, none⟩
  else .error "Unexpected token".toList

/-- Concrete clock: successive `Date.now()` samples one second apart, so every
delta clears the 50ms rate limit. -/
def timesFixture : Nat → Int := fun n => 1000 * ((n : Int) + 1)

/-- Fixture SSE stream: two `data: ` delta lines, newline-terminated. -/
def ssePayloadFx : List Char :=
  ("data: ".toList ++ deltaPayload1 ++ "\n".toList) ++
  ("data: ".toList ++ deltaPayload2 ++ "\n".toList)

/-- The fixture stream delivered as one chunk. -/
def chunksAFx : List (List Char) := [ssePayloadFx]

/-- The fixture stream delivered as two chunks cut mid-line. -/
def chunksBFx : List (List Char) := [ssePayloadFx.take 10, ssePayloadFx.drop 10]

/-- Fixture stream whose error event carries a message starting with
`"Unexpected"`, followed by a delta line. -/
def chunksErrUnexpectedFx : List (List Char) :=
  [("data: ".toList ++ errorPayloadUnexpected ++ "\n".toList) ++
   ("data: ".toList ++ deltaPayload1 ++ "\n".toList)]

/-- Fixture stream: one delta line, then an error event with message
`"boom"`, then another delta line. -/
def chunksErrBoomFx : List (List Char) :=
  [("data: ".toList ++ deltaPayload1 ++ "\n".toList) ++
   ("data: ".toList ++ errorPayloadBoom ++ "\n".toList) ++
   ("data: ".toList ++ deltaPayload2 ++ "\n".toList)]

/-! ## Backend chat store (spec §4.3; the server code is not in the snapshot) -/

/-- Modelled from the spec: a message held by the backend chat store (§3);
only its existence matters to the claims, via the empty message list of a
fresh chat. -/
structure BMessage where
  id : String
  role : String
  content : String
deriving DecidableEq

/-- Modelled from the spec: a backend Chat record (§3):
`(id, title, agent_id, messages, created_at, updated_at)`. -/
structure BChat where
  id : String
  title : String
  agent_id : String
  messages : List BMessage
  created_at : Nat
  updated_at : Nat
deriving DecidableEq

/-- Modelled from the spec: the configured maximum number of chats (10). -/
def MAX_CHATS : Nat := 10

/-- Smallest `updated_at` among `c :: rest`. -/
def oldestUpdated (c : BChat) (rest : List BChat) : Nat :=
  rest.foldl (fun a x => min a x.updated_at) c.updated_at

/-- Remove the first chat carrying the given `updated_at` value. -/
def dropFirstUpdatedAt : List BChat → Nat → List BChat
  | [], _ => []
  | c :: rest, m =>
    if c.updated_at = m then rest else c :: dropFirstUpdatedAt rest m

/-- Modelled from the spec: delete the chat with the oldest `updated_at`
(§4.3, eviction before create). -/
def removeOldest : List BChat → List BChat
  | [] => []
  | c :: rest => dropFirstUpdatedAt (c :: rest) (oldestUpdated c rest)

/-- Modelled from the spec: `create(title, agent_id)` (§4.3). The caller
supplies the fresh record `c` (a new id, an empty message list, and
`created_at = updated_at =` the current time); when the store already holds
the configured maximum of 10 chats, the oldest-updated chat is deleted
first, then the new chat is appended. -/
def createChat (store : List BChat) (c : BChat) : List BChat :=
  (if MAX_CHATS ≤ store.length then removeOldest store else store) ++ [c]

/-- Create a sequence of chats in order, starting from an empty store. -/
def createChats (cs : List BChat) : List BChat := cs.foldl createChat []

/-! ## Browser localStorage model (key/value store used by the compare tool) -/

/-- A localStorage snapshot: association list from keys to string values. -/
abbrev Storage := List (List Char × List Char)

/-- JavaScript `localStorage.getItem`. -/
def getItem (store : Storage) (k : List Char) : Option (List Char) :=
  (store.find? (fun e => e.1 = k)).map (fun e => e.2)

/-- JavaScript `localStorage.setItem`: replaces any previous value of `k`. -/
def setItem (store : Storage) (k v : List Char) : Storage :=
  (k, v) :: store.filter (fun e => e.1 ≠ k)

/-- JavaScript `localStorage.removeItem`. -/
def removeItem (store : Storage) (k : List Char) : Storage :=
  store.filter (fun e => e.1 ≠ k)

/-- LocalStorage key of the cached old PDF (line 91). -/
def LS_OLD_PDF : List Char := "compare_old_pdf".toList

/-- LocalStorage key of the cached new PDF (line 92). -/
def LS_NEW_PDF : List Char := "compare_new_pdf".toList

/-- LocalStorage key of the cached analysis text (line 93). -/
def LS_ANALYSIS : List Char := "compare_analysis".toList

/-- LocalStorage key of the cached impact text (line 94). -/
def LS_IMPACT : List Char := "compare_impact".toList

/-! ## PdfFile JSON cache (savePdfToStorage / loadPdfFromStorage) -/

/-- An uploaded PDF as held by the compare tool (nav-secondary.tsx lines
84-88): name, byte size (an integral JS `number`), base64 data. -/
structure PdfFile where
  name : List Char
  size : Nat
  data : List Char
deriving DecidableEq

/-- Decimal digit test (character codes 48-57). -/
def isDigitChar (c : Char) : Bool := 48 ≤ c.toNat && c.toNat ≤ 57

/-- Numeric value of a decimal digit character. -/
def digitVal (c : Char) : Nat := c.toNat - 48

/-- Value of a decimal digit run. -/
def digitsVal (s : List Char) : Nat := s.foldl (fun a c => 10 * a + digitVal c) 0

/-- Lowercase hex digit characters, as `JSON.stringify` prints `\u00XX`
escapes. -/
def hexDigitChar (n : Nat) : Char :=
  match n with
  | 0 => '0' | 1 => '1' | 2 => '2' | 3 => '3' | 4 => '4' | 5 => '5' | 6 => '6'
  | 7 => '7' | 8 => '8' | 9 => '9' | 10 => 'a' | 11 => 'b' | 12 => 'c'
  | 13 => 'd' | 14 => 'e' | _ => 'f'

/-- Hex digit test (JSON `\uXXXX` escapes accept both cases). -/
def isHexDig (c : Char) : Bool :=
  (48 ≤ c.toNat && c.toNat ≤ 57) || (97 ≤ c.toNat && c.toNat ≤ 102) ||
  (65 ≤ c.toNat && c.toNat ≤ 70)

/-- Numeric value of a hex digit character. -/
def hexVal (c : Char) : Nat :=
  if 97 ≤ c.toNat then c.toNat - 87
  else if 65 ≤ c.toNat then c.toNat - 55
  else c.toNat - 48

/-- Escaping of one character inside a JSON string, as `JSON.stringify`
performs it: quote and backslash get a backslash escape, the named control
escapes are used where they exist, the remaining control characters become
`\u00XX`, and every other character is emitted literally. -/
def escChar (c : Char) : List Char :=
  if c = '"' then ['\\', '"']
  else if c = '\\' then ['\\', '\\']
  else if c = '\x08' then ['\\', 'b']
  else if c = '\t' then ['\\', 't']
  else if c = '\n' then ['\\', 'n']
  else if c = '\x0c' then ['\\', 'f']
  else if c = '\r' then ['\\', 'r']
  else if c.toNat < 32 then
    ['\\', 'u', '0', '0', hexDigitChar (c.toNat / 16), hexDigitChar (c.toNat % 16)]
  else [c]

/-- `JSON.stringify` escaping of a whole string body. -/
def escapeJson (s : List Char) : List Char :=
  s.foldr (fun c acc => escChar c ++ acc) []

/-- Inverse of the named JSON escapes (`JSON.parse` side). -/
def unescapeChar (e : Char) : Option Char :=
  if e = '"' then some '"'
  else if e = '\\' then some '\\'
  else if e = '/' then some '/'
  else if e = 'b' then some '\x08'
  else if e = 't' then some '\t'
  else if e = 'n' then some '\n'
  else if e = 'f' then some '\x0c'
  else if e = 'r' then some '\r'
  else none

/-- JSON string-literal body recogniser (`JSON.parse` side, scalar values):
given the characters after the opening quote, return the decoded content and
the remainder after the closing quote. -/
def parseStringLit : List Char → Option (List Char × List Char)
  | [] => none
  | c :: rest =>
    if c = '"' then some ([], rest)
    else if c = '\\' then
      match rest with
      | [] => none
      | e :: rest2 =>
        if e = 'u' then
          match rest2 with
          | h1 :: h2 :: h3 :: h4 :: rest3 =>
            if isHexDig h1 && isHexDig h2 && isHexDig h3 && isHexDig h4 then
              (parseStringLit rest3).map
                (fun pr =>
                  (Char.ofNat (((hexVal h1 * 16 + hexVal h2) * 16 + hexVal h3) * 16 +
                    hexVal h4) :: pr.1, pr.2))
            else none
          | _ => none
        else
          match unescapeChar e with
          | some u => (parseStringLit rest2).map (fun pr => (u :: pr.1, pr.2))
          | none => none
    else (parseStringLit rest).map (fun pr => (c :: pr.1, pr.2))

/-- Consume an expected literal token. -/
def expectLit (lit s : List Char) : Option (List Char) :=
  if lit.isPrefixOf s then some (s.drop lit.length) else none

/-- `JSON.stringify` of a `PdfFile` object: the keys appear in the creation
order of the object literal (`name`, `size`, `data`, line 164). -/
def stringifyPdf (p : PdfFile) : List Char :=
  "\x7b\"name\":\"".toList ++ escapeJson p.name ++ "\",\"size\":".toList ++
  natToChars p.size ++ ",\"data\":\"".toList ++ escapeJson p.data ++
  "\"\x7d".toList

/-- `JSON.parse(raw) as PdfFile` (line 134): the cast is unchecked in the
source, so this model recognises exactly the object shape produced by
`stringifyPdf`; any other payload is a parse failure, which the surrounding
`catch` converts to `null`. -/
def parsePdfJson (s : List Char) : Option PdfFile := do
  let s1 ← expectLit "\x7b\"name\":\"".toList s
  let (nm, s2) ← parseStringLit s1
  let s3 ← expectLit ",\"size\":".toList s2
  let ds := s3.takeWhile isDigitChar
  let s4 := s3.dropWhile isDigitChar
  if ds = [] then none
  else do
    let s5 ← expectLit ",\"data\":\"".toList s4
    let (dt, s6) ← parseStringLit s5
    let s7 ← expectLit "\x7d".toList s6
    if s7 = [] then some ⟨nm, digitsVal ds, dt⟩ else none

/-- `savePdfToStorage` (lines 119-129): serialise and store, or remove the key
when `pdf` is null; the `try`/`catch` around `setItem` is modelled by the
`writeOk` flag — when the write fails (storage full) it is silently ignored. -/
def savePdfToStorage (store : Storage) (key : List Char) (pdf : Option PdfFile)
    (writeOk : Bool) : Storage :=
  match pdf with
  | some p => if writeOk then setItem store key (stringifyPdf p) else store
  | none => removeItem store key

/-- `loadPdfFromStorage` (lines 131-138): read the raw value and parse it;
a missing key or a parse failure yields `null`. -/
def loadPdfFromStorage (store : Storage) (key : List Char) : Option PdfFile :=
  match getItem store key with
  | some raw => parsePdfJson raw
  | none => none

/-! ## ToolsView Clear All (handleClear, lines 375-393) -/

/-- An `AbortController`, reduced to its aborted flag. -/
structure AbortCtrl where
  aborted : Bool
deriving DecidableEq

/-- The ToolsView component state touched by `handleClear`, together with the
two abort-controller refs and the localStorage snapshot. -/
structure ToolsState where
  oldPdf : Option PdfFile
  newPdf : Option PdfFile
  analysisResult : List Char
  impactResult : List Char
  analysisError : List Char
  impactError : List Char
  isAnalyzing : Bool
  isFindingImpact : Bool
  analyzeAbort : Option AbortCtrl
  impactAbort : Option AbortCtrl
  storage : Storage
deriving DecidableEq

/-- `handleClear` (lines 375-393): abort any in-flight stream through the two
refs (`?.abort()` is a no-op on a null ref), reset every piece of component
state, and remove the four cached localStorage keys. -/
def handleClear (st : ToolsState) : ToolsState :=
  { oldPdf := none, newPdf := none,
    analysisResult := [], impactResult := [],
    analysisError := [], impactError := [],
    isAnalyzing := false, isFindingImpact := false,
    analyzeAbort := st.analyzeAbort.map (fun _ => ⟨true⟩),
    impactAbort := st.impactAbort.map (fun _ => ⟨true⟩),
    storage :=
      removeItem (removeItem (removeItem (removeItem st.storage LS_OLD_PDF)
        LS_NEW_PDF) LS_ANALYSIS) LS_IMPACT }

/-! ## Predefined themes (src/unnamed/part_000) -/

/-- Theme colour palette (part_000 lines 9-37). -/
structure ThemeColors where
  textHeading : String
  textPrimary : String
  textMuted : String
  accentPrimary : String
  animatedBgColor : String
  bgPrimary : String
  bgSecondary : String
  border : String
  success : String
  successHover : String
  error : String
  errorHover : String
  info : String
  infoHover : String
  warning : String
  warningHover : String
deriving DecidableEq

/-- Theme fonts (part_000 lines 39-42). -/
structure Typography where
  primaryFont : String
  secondaryFont : String
deriving DecidableEq

/-- Animated background settings (part_000 lines 44-52); the fractional
settings are exact rationals here. -/
structure AnimatedBackgroundSettings where
  particleCount : Nat
  connectionDistance : Nat
  particleOpacity : ℚ
  lineOpacity : ℚ
  particleSize : ℚ
  lineWidth : ℚ
  animationSpeed : ℚ
deriving DecidableEq

/-- A predefined/system theme (part_000 lines 54-62). -/
structure PredefinedTheme where
  id : String
  name : String
  description : String
  isDefault : Bool
  colors : ThemeColors
  typography : Typography
  animatedBackground : AnimatedBackgroundSettings
deriving DecidableEq

/-- The predefined theme table (part_000 lines 65-217): Corporate Light
(`isDefault: true`), Corporate Dark, Corporate Navy. -/
def PREDEFINED_THEMES : List PredefinedTheme :=
  [{ id := "default",
     name := "Corporate Light",
     description := "Professional aerospace-inspired light theme",
     isDefault := true,
     colors :=
       { textHeading := "#0C1C3E",
         textPrimary := "#1A2B4A",
         textMuted := "#6B7B94",
         accentPrimary := "#0055A4",
         animatedBgColor := "#0C1C3E",
         bgPrimary := "#FFFFFF",
         bgSecondary := "#F4F6F9",
         border := "#D5DBE5",
         success := "#16A34A",
         successHover := "#DCFCE7",
         error := "#DC2626",
         errorHover := "#FEE2E2",
         info := "#0055A4",
         infoHover := "#DBEAFE",
         warning := "#D97706",
         warningHover := "#FEF3C7" },
     typography :=
       { primaryFont :=
           "\"Montserrat\", -apple-system, BlinkMacSystemFont, \"Segoe UI\", sans-serif",
         secondaryFont :=
           "\"Open Sans\", -apple-system, BlinkMacSystemFont, \"Segoe UI\", sans-serif" },
     animatedBackground :=
       { particleCount := 30,
         connectionDistance := 90,
         particleOpacity := 0.08,
         lineOpacity := 0.3,
         particleSize := 1.2,
         lineWidth := 0.8,
         animationSpeed := 0.6 } },
   { id := "default-dark",
     name := "Corporate Dark",
     description := "Deep navy aerospace-inspired dark theme",
     isDefault := false,
     colors :=
       { textHeading := "#F0F4F8",
         textPrimary := "#CBD5E1",
         textMuted := "#8494A7",
         accentPrimary := "#3B8DD6",
         animatedBgColor := "#1E3A5F",
         bgPrimary := "#0B1424",
         bgSecondary := "#0F1B2E",
         border := "#1E2D42",
         success := "#22C55E",
         successHover := "rgba(34, 197, 94, 0.15)",
         error := "#EF4444",
         errorHover := "rgba(239, 68, 68, 0.15)",
         info := "#3B8DD6",
         infoHover := "rgba(59, 141, 214, 0.15)",
         warning := "#F59E0B",
         warningHover := "rgba(245, 158, 11, 0.15)" },
     typography :=
       { primaryFont :=
           "\"Montserrat\", -apple-system, BlinkMacSystemFont, \"Segoe UI\", sans-serif",
         secondaryFont :=
           "\"Open Sans\", -apple-system, BlinkMacSystemFont, \"Segoe UI\", sans-serif" },
     animatedBackground :=
       { particleCount := 30,
         connectionDistance := 90,
         particleOpacity := 0.08,
         lineOpacity := 0.3,
         particleSize := 1.2,
         lineWidth := 0.8,
         animationSpeed := 0.6 } },
   { id := "corporate-navy",
     name := "Corporate Navy",
     description := "Full navy immersive aerospace experience",
     isDefault := false,
     colors :=
       { textHeading := "#FFFFFF",
         textPrimary := "#D1DAE6",
         textMuted := "#8FA3BB",
         accentPrimary := "#4DA3E8",
         animatedBgColor := "#4DA3E8",
         bgPrimary := "#0A1628",
         bgSecondary := "#111F36",
         border := "#1C2E47",
         success := "#34D399",
         successHover := "rgba(52, 211, 153, 0.15)",
         error := "#F87171",
         errorHover := "rgba(248, 113, 113, 0.15)",
         info := "#4DA3E8",
         infoHover := "rgba(77, 163, 232, 0.15)",
         warning := "#FBBF24",
         warningHover := "rgba(251, 191, 36, 0.15)" },
     typography :=
       { primaryFont :=
           "\"Montserrat\", -apple-system, BlinkMacSystemFont, \"Segoe UI\", sans-serif",
         secondaryFont :=
           "\"Open Sans\", -apple-system, BlinkMacSystemFont, \"Segoe UI\", sans-serif" },
     animatedBackground :=
       { particleCount := 35,
         connectionDistance := 85,
         particleOpacity := 0.1,
         lineOpacity := 0.4,
         particleSize := 1.0,
         lineWidth := 0.6,
         animationSpeed := 0.5 } }]

/-- `getDefaultTheme` (part_000 lines 219-225): `find` over the theme table;
the `throw` branch taken when no default exists is the `none` case. -/
def getDefaultTheme : Option PredefinedTheme :=
  PREDEFINED_THEMES.find? (fun t => t.isDefault)

/-- `getThemeById` (part_000 lines 227-229). -/
def getThemeById (themeId : String) : Option PredefinedTheme :=
  PREDEFINED_THEMES.find? (fun t => t.id = themeId)

/-! ## Auxiliary predicates and fixtures used by the statements below -/

/-- The callback invariant: the `onDelta` arguments so far grow only by
appending, and each is a prefix of the current accumulated buffer. -/
def callsInv (st : SSEState) : Prop :=
  List.Chain' (· <+: ·) st.calls ∧ ∀ c ∈ st.calls, c <+: st.accumulated

/-- The callback invariant on a run outcome, for whichever state it carries. -/
def runInv : SSERun → Prop
  | .ok st => callsInv st
  | .thrown _ st => callsInv st

/-- The `buffer` of the state carried by a run outcome. -/
def SSERun.bufferOf : SSERun → List Char
  | .ok st => st.buffer
  | .thrown _ st => st.buffer

/-- Fixture chat number `i`: distinct decimal id, empty messages, and
`created_at = updated_at = i`. -/
def chatFx (i : Nat) : BChat :=
  ⟨String.mk (natToChars i), "title", "agent", [], i, i⟩

/-! ## Theorems -/

/-- C9: the predefined theme table contains exactly one theme with
`isDefault` set (the theme with id `"default"`), so `getDefaultTheme` never
reaches its error branch and always returns that theme. -/
theorem c9_default_theme_total :
    (getDefaultTheme.map fun t => t.id) = some "default" ∧
    getDefaultTheme.isSome = true ∧
    (PREDEFINED_THEMES.filter fun t => t.isDefault).length = 1 :=
  ⟨rfl, rfl, rfl⟩

/-- Removing a key makes a subsequent lookup of that key miss. -/
theorem getItem_removeItem_self (store : Storage) (k : List Char) :
    getItem (removeItem store k) k = none := by
  have hp : (fun a : List Char × List Char => !decide (a.1 = k) &&
      decide (a.1 = k)) = (fun _ : List Char × List Char => false) := by
    funext a
    by_cases ha : a.1 = k <;> simp [ha]
  simp [getItem, removeItem, List.find?_filter, hp]

/-- Removing one key leaves lookups of other keys unchanged. -/
theorem getItem_removeItem_ne (store : Storage) (k k' : List Char)
    (h : k ≠ k') :
    getItem (removeItem store k') k = getItem store k := by
  have hp : (fun a : List Char × List Char => !decide (a.1 = k') &&
      decide (a.1 = k)) = (fun a : List Char × List Char => decide (a.1 = k)) := by
    funext a
    by_cases ha : a.1 = k
    · have : ¬ a.1 = k' := fun hh => h (ha ▸ hh)
      simp [ha, this, h]
    · simp [ha]
  simp [getItem, removeItem, List.find?_filter, hp]

/-- C8: after handleClear, any in-flight analysis or impact stream has been
aborted through its AbortController, the four cached localStorage keys
(compare_old_pdf, compare_new_pdf, compare_analysis, compare_impact) no
longer resolve, and the uploaded-file state, both result texts, both error
states and both loading flags are empty. -/
theorem c8_handleClear (st : ToolsState) :
    (handleClear st).oldPdf = none ∧ (handleClear st).newPdf = none ∧
    (handleClear st).analysisResult = [] ∧ (handleClear st).impactResult = [] ∧
    (handleClear st).analysisError = [] ∧ (handleClear st).impactError = [] ∧
    (handleClear st).isAnalyzing = false ∧
    (handleClear st).isFindingImpact = false ∧
    (handleClear st).analyzeAbort = st.analyzeAbort.map (fun _ => ⟨true⟩) ∧
    (handleClear st).impactAbort = st.impactAbort.map (fun _ => ⟨true⟩) ∧
    getItem (handleClear st).storage LS_OLD_PDF = none ∧
    getItem (handleClear st).storage LS_NEW_PDF = none ∧
    getItem (handleClear st).storage LS_ANALYSIS = none ∧
    getItem (handleClear st).storage LS_IMPACT = none := by
  refine ⟨rfl, rfl, rfl, rfl, rfl, rfl, rfl, rfl, rfl, rfl, ?_, ?_, ?_, ?_⟩
  · show getItem (removeItem (removeItem (removeItem (removeItem st.storage
      LS_OLD_PDF) LS_NEW_PDF) LS_ANALYSIS) LS_IMPACT) LS_OLD_PDF = none
    rw [getItem_removeItem_ne _ _ _ (by decide),
      getItem_removeItem_ne _ _ _ (by decide),
      getItem_removeItem_ne _ _ _ (by decide)]
    exact getItem_removeItem_self _ _
  · show getItem (removeItem (removeItem (removeItem (removeItem st.storage
      LS_OLD_PDF) LS_NEW_PDF) LS_ANALYSIS) LS_IMPACT) LS_NEW_PDF = none
    rw [getItem_removeItem_ne _ _ _ (by decide),
      getItem_removeItem_ne _ _ _ (by decide)]
    exact getItem_removeItem_self _ _
  · show getItem (removeItem (removeItem (removeItem (removeItem st.storage
      LS_OLD_PDF) LS_NEW_PDF) LS_ANALYSIS) LS_IMPACT) LS_ANALYSIS = none
    rw [getItem_removeItem_ne _ _ _ (by decide)]
    exact getItem_removeItem_self _ _
  · exact getItem_removeItem_self _ _

/-- C2: however the stream ends — normally or with a thrown error — when the
accumulated buffer is nonempty the very last update-callback invocation is
the flush of the full accumulated buffer, so no text-delta content is lost to
the 50ms rate limiter. -/
theorem c2_final_flush (parse : ParseFn) (times : Nat → Int)
    (chunks : List (List Char))
    (h : (streamSSEBody parse times chunks).accumulated ≠ []) :
    (streamSSEBody parse times chunks).calls.getLast? =
      some (streamSSEBody parse times chunks).accumulated := by
  unfold streamSSEBody at h ⊢
  rcases hres : processChunks parse times initSSEState chunks with st | ⟨m, st⟩ <;>
    rw [hres] at h <;> dsimp only at h ⊢ <;>
    rw [flushCalls, if_neg h] <;> exact List.getLast?_concat _

/-- Witness for C2 at the concrete fixture stream. -/
theorem c2_final_flush_witness :
    (streamSSEBody parseFixture timesFixture chunksAFx).accumulated ≠ [] ∧
    (streamSSEBody parseFixture timesFixture chunksAFx).calls.getLast? =
      some (streamSSEBody parseFixture timesFixture chunksAFx).accumulated :=
  ⟨by decide, c2_final_flush parseFixture timesFixture chunksAFx (by decide)⟩

/-- C6: on a non-2xx HTTP response, streamSSE throws `API returned ...`
before consuming any stream data (the outcome is the same for every body) and
before any update-callback invocation, and the caller stores that nonempty
message as the user-visible error while the result text stays empty. -/
theorem c6_non2xx_aborts (resp : HttpResponse) (parse : ParseFn)
    (times : Nat → Int) (h : resp.ok = false) :
    streamSSE resp parse times = ⟨[], [], some (apiErrorMsg resp)⟩ ∧
    (∀ b, streamSSE { resp with body := b } parse times =
      ⟨[], [], some (apiErrorMsg resp)⟩) ∧
    handleAnalyzeModel resp parse times = ⟨[], apiErrorMsg resp, false⟩ ∧
    apiErrorMsg resp ≠ [] := by
  refine ⟨by simp [streamSSE, h], fun b => by simp [streamSSE, h, apiErrorMsg],
    by simp [handleAnalyzeModel, streamSSE, h], ?_⟩
  intro hc
  have := congrArg List.length hc
  simp [apiErrorMsg] at this

/-- Witness for C6 at a concrete 500 response. -/
theorem c6_non2xx_aborts_witness :
    streamSSE ⟨false, 500, "oops".toList, none⟩ parseFixture timesFixture =
      ⟨[], [], some (apiErrorMsg ⟨false, 500, "oops".toList, none⟩)⟩ ∧
    handleAnalyzeModel ⟨false, 500, "oops".toList, none⟩ parseFixture
      timesFixture =
      ⟨[], apiErrorMsg ⟨false, 500, "oops".toList, none⟩, false⟩ := by
  have h := c6_non2xx_aborts ⟨false, 500, "oops".toList, none⟩ parseFixture
    timesFixture rfl
  exact ⟨h.1, h.2.2.1⟩

/-- A message starting with `"Unexpected"` cannot start with
`"Unknown error"` (they differ at the third character). -/
theorem not_unknown_of_unexpected (m : List Char)
    (h : "Unexpected".toList.isPrefixOf m = true) :
    "Unknown error".toList.isPrefixOf m = false := by
  obtain ⟨t, rfl⟩ := List.isPrefixOf_iff_prefix.mp h
  rfl

/-- The catch classification swallows exactly the messages starting with
`"Unexpected"`: such a message is not rethrown. -/
theorem rethrows_eq_false_of_unexpected (m : List Char)
    (h : "Unexpected".toList.isPrefixOf m = true) :
    rethrows m = false := by
  unfold rethrows
  rw [not_unknown_of_unexpected m h, h]
  rfl

/-- A message that does not start with `"Unexpected"` is rethrown. -/
theorem rethrows_eq_true_of_not_unexpected (m : List Char)
    (h : "Unexpected".toList.isPrefixOf m = false) :
    rethrows m = true := by
  unfold rethrows
  rw [h]
  simp

/-- C3: a `data: ` line whose payload fails to parse is skipped with the
state unchanged — processing of the remaining lines continues — except when
the parse error's message fails the substring classification (it does not
start with `"Unexpected"`, in particular when it starts with
`"Unknown error"`), in which case the error is rethrown and aborts the
stream. -/
theorem c3_malformed_line_skipped (parse : ParseFn) (times : Nat → Int)
    (st : SSEState) (line : List Char) (rest : List (List Char))
    (m : List Char)
    (hW : jsTrim line ≠ []) (hD : dataMarker.isPrefixOf line = true)
    (hne : jsTrim (line.drop 6) ≠ []) (hnd : jsTrim (line.drop 6) ≠ doneMarker)
    (hp : parse (jsTrim (line.drop 6)) = .error m) :
    ("Unexpected".toList.isPrefixOf m = true →
      processLine parse times st line = .ok st ∧
      processLines parse times st (line :: rest) =
        processLines parse times st rest) ∧
    ("Unexpected".toList.isPrefixOf m = false →
      processLine parse times st line = .thrown m st ∧
      processLines parse times st (line :: rest) = .thrown m st) := by
  constructor
  · intro hU
    have h1 : processLine parse times st line = .ok st := by
      simp [processLine, hW, hD, hne, hnd, hp,
        rethrows_eq_false_of_unexpected m hU]
    exact ⟨h1, by simp [processLines, h1]⟩
  · intro hU
    have h1 : processLine parse times st line = .thrown m st := by
      simp [processLine, hW, hD, hne, hnd, hp,
        rethrows_eq_true_of_not_unexpected m hU]
    exact ⟨h1, by simp [processLines, h1]⟩

/-- Witness for C3: the line `data: oops` (payload not valid JSON, V8-style
message `Unexpected token`) is skipped with the state unchanged. -/
theorem c3_malformed_line_skipped_witness :
    processLine parseFixture timesFixture initSSEState "data: oops".toList =
      .ok initSSEState :=
  ((c3_malformed_line_skipped parseFixture timesFixture initSSEState
      "data: oops".toList [] "Unexpected token".toList
      (by decide) (by decide) (by decide) (by decide) (by decide)).1
    (by decide)).1

/-- C4 counterexample: the stream carrying the explicit error event
`\x7b"type":"error","error":"Unexpected upstream failure"\x7d` followed by a
delta line refutes the claim: no error is raised (the outcome is `none`) and
processing of subsequent events continues (the later `"Hello"` delta is
accumulated). -/
theorem c4_error_event_counterexample :
    (streamSSEBody parseFixture timesFixture chunksErrUnexpectedFx).outcome =
      none ∧
    (streamSSEBody parseFixture timesFixture
        chunksErrUnexpectedFx).accumulated = "Hello".toList := by
  constructor
  · decide
  · decide

/-- C4 (amended): for every stream event parsing to an object with type
`"error"` whose resolved message — the event's `error` field, or
`"Unknown error from server"` when that field is absent or empty — does not
start with `"Unexpected"`, streamSSE rethrows that message: no later line is
processed, and when the read loop ends thrown the finally block still
flushes the accumulated text through the callback while the error
propagates. -/
theorem c4_error_event_aborts (parse : ParseFn) (times : Nat → Int)
    (st : SSEState) (line : List Char) (rest : List (List Char))
    (ev : SSEEvent) (m : List Char)
    (hW : jsTrim line ≠ []) (hD : dataMarker.isPrefixOf line = true)
    (hne : jsTrim (line.drop 6) ≠ []) (hnd : jsTrim (line.drop 6) ≠ doneMarker)
    (hp : parse (jsTrim (line.drop 6)) = .ok ev)
    (ht : ev.type = "error".toList)
    (hm : m = jsOrDefault ev.error "Unknown error from server".toList)
    (hU : "Unexpected".toList.isPrefixOf m = false) :
    processLine parse times st line = .thrown m st ∧
    processLines parse times st (line :: rest) = .thrown m st ∧
    (∀ chunks st',
      processChunks parse times initSSEState chunks = .thrown m st' →
      streamSSEBody parse times chunks =
        ⟨flushCalls st', st'.accumulated, some m⟩) := by
  have h1 : processLine parse times st line = .thrown m st := by
    subst hm
    have hr := rethrows_eq_true_of_not_unexpected _ hU
    unfold processLine
    rw [if_neg (by simp [hW, hD]), if_neg (by simp [hne, hnd]), hp]
    dsimp only
    rw [if_pos ht, if_pos hr]
  refine ⟨h1, by simp [processLines, h1], ?_⟩
  intro chunks st' hc
  unfold streamSSEBody
  rw [hc]

/-- Witness for the amended C4 at the concrete `"boom"` error event. -/
theorem c4_error_event_aborts_witness :
    processLine parseFixture timesFixture initSSEState
      ("data: ".toList ++ errorPayloadBoom) = .thrown "boom".toList
        initSSEState :=
  (c4_error_event_aborts parseFixture timesFixture initSSEState
      ("data: ".toList ++ errorPayloadBoom) []
      ⟨"error".toList, some "boom".toList, none⟩ "boom".toList
      (by decide) (by decide) (by decide) (by decide) (by decide) (by decide)
      (by decide) (by decide)).1

/-- One line step preserves the callback invariant, whichever way it ends. -/
theorem callsInv_processLine (parse : ParseFn) (times : Nat → Int)
    (st : SSEState) (l : List Char) (h : callsInv st) :
    runInv (processLine parse times st l) := by
  unfold processLine
  split
  · exact h
  split
  · exact h
  split
  · split <;> exact h
  split
  · split <;> exact h
  split
  · split
    · refine ⟨?_, ?_⟩
      · rw [List.chain'_append]
        refine ⟨h.1, List.chain'_singleton _, ?_⟩
        intro x hx y hy
        simp only [List.head?_cons, Option.mem_def, Option.some.injEq] at hy
        subst hy
        exact (h.2 x (List.mem_of_getLast?_eq_some hx)).trans
          (List.prefix_append _ _)
      · intro c hc
        rcases List.mem_append.mp hc with h1 | h2
        · exact (h.2 c h1).trans (List.prefix_append _ _)
        · simp only [List.mem_singleton] at h2
          subst h2
          exact List.prefix_refl _
    · exact ⟨h.1, fun c hc => (h.2 c hc).trans (List.prefix_append _ _)⟩
  · exact h

/-- Processing a list of lines preserves the callback invariant. -/
theorem callsInv_processLines (parse : ParseFn) (times : Nat → Int)
    (ls : List (List Char)) :
    ∀ st : SSEState, callsInv st →
      runInv (processLines parse times st ls) := by
  induction ls with
  | nil => exact fun st h => h
  | cons l ls ih =>
    intro st h
    unfold processLines
    cases hpl : processLine parse times st l with
    | ok st' =>
      have hinv := callsInv_processLine parse times st l h
      rw [hpl] at hinv
      exact ih st' hinv
    | thrown m st' =>
      have hinv := callsInv_processLine parse times st l h
      rw [hpl] at hinv
      exact hinv

/-- One chunk step preserves the callback invariant (the `buffer` update does
not touch `calls` or `accumulated`). -/
theorem callsInv_processChunk (parse : ParseFn) (times : Nat → Int)
    (st : SSEState) (c : List Char) (h : callsInv st) :
    runInv (processChunk parse times st c) :=
  callsInv_processLines parse times _ _ h

/-- The whole read loop preserves the callback invariant. -/
theorem callsInv_processChunks (parse : ParseFn) (times : Nat → Int)
    (chunks : List (List Char)) :
    ∀ st : SSEState, callsInv st →
      runInv (processChunks parse times st chunks) := by
  induction chunks with
  | nil => exact fun st h => h
  | cons c cs ih =>
    intro st h
    unfold processChunks
    cases hpc : processChunk parse times st c with
    | ok st' =>
      have hinv := callsInv_processChunk parse times st c h
      rw [hpc] at hinv
      exact ih st' hinv
    | thrown m st' =>
      have hinv := callsInv_processChunk parse times st c h
      rw [hpc] at hinv
      exact hinv

/-- The final flush keeps the chain and everything stays a prefix of the
final accumulated text. -/
theorem callsInv_flush (st : SSEState) (h : callsInv st) :
    List.Chain' (· <+: ·) (flushCalls st) ∧
    ∀ c ∈ flushCalls st, c <+: st.accumulated := by
  unfold flushCalls
  by_cases ha : st.accumulated = []
  · rw [if_pos ha, List.append_nil]
    exact h
  · rw [if_neg ha]
    constructor
    · rw [List.chain'_append]
      refine ⟨h.1, List.chain'_singleton _, ?_⟩
      intro x hx y hy
      simp only [List.head?_cons, Option.mem_def, Option.some.injEq] at hy
      subst hy
      exact h.2 x (List.mem_of_getLast?_eq_some hx)
    · intro c hc
      rcases List.mem_append.mp hc with h1 | h2
      · exact h.2 c h1
      · simp only [List.mem_singleton] at h2
        subst h2
        exact List.prefix_refl _

/-- C5: every update-callback invocation receives the full cumulative
accumulated buffer: across one stream the successive callback arguments form
a chain in which each is a prefix of the next (append-only, never truncated
or reordered), and every argument is a prefix of the final accumulated
text. -/
theorem c5_cumulative_callbacks (parse : ParseFn) (times : Nat → Int)
    (chunks : List (List Char)) :
    List.Chain' (· <+: ·) (streamSSEBody parse times chunks).calls ∧
    ∀ c ∈ (streamSSEBody parse times chunks).calls,
      c <+: (streamSSEBody parse times chunks).accumulated := by
  have hinit : callsInv initSSEState := ⟨List.chain'_nil, by simp [initSSEState]⟩
  have h := callsInv_processChunks parse times chunks initSSEState hinit
  unfold streamSSEBody
  rcases hres : processChunks parse times initSSEState chunks with st | ⟨m, st⟩ <;>
    rw [hres] at h <;> exact callsInv_flush st h

/-- Witness for C5: on the fixture stream, the first callback argument is a
prefix of the final accumulated text. -/
theorem c5_cumulative_callbacks_witness :
    "Hello".toList <+:
      (streamSSEBody parseFixture timesFixture chunksAFx).accumulated :=
  (c5_cumulative_callbacks parseFixture timesFixture chunksAFx).2
    "Hello".toList (by decide)

/-- Folding `min` over values all at least `a` returns `a`. -/
theorem foldl_min_updated (l : List BChat) (a : Nat)
    (h : ∀ x ∈ l, a ≤ x.updated_at) :
    l.foldl (fun acc x => min acc x.updated_at) a = a := by
  induction l generalizing a with
  | nil => rfl
  | cons x xs ih =>
    rw [List.foldl_cons, min_eq_left (h x (List.mem_cons_self x xs))]
    exact ih a fun y hy => h y (List.mem_cons_of_mem x hy)

/-- On a store with strictly increasing `updated_at`, eviction removes
exactly the head (the oldest chat). -/
theorem removeOldest_sorted (c : BChat) (rest : List BChat)
    (h : List.Pairwise (fun a b => a.updated_at < b.updated_at) (c :: rest)) :
    removeOldest (c :: rest) = rest := by
  have h0 : removeOldest (c :: rest) =
      dropFirstUpdatedAt (c :: rest) (oldestUpdated c rest) := rfl
  rw [h0]
  unfold oldestUpdated
  rw [foldl_min_updated rest c.updated_at
    (fun x hx => le_of_lt ((List.pairwise_cons.mp h).1 x hx))]
  simp [dropFirstUpdatedAt]

/-- Creating chats in `updated_at` order keeps exactly the most recent
`MAX_CHATS` of them, in order. -/
theorem createChats_sorted (cs : List BChat)
    (h : List.Pairwise (fun a b => a.updated_at < b.updated_at) cs) :
    createChats cs = cs.drop (cs.length - MAX_CHATS) := by
  have hM : MAX_CHATS = 10 := rfl
  induction cs using List.reverseRecOn with
  | nil => rfl
  | append_singleton cs c ih =>
    have hcs := h.sublist (List.sublist_append_left cs [c])
    have hstep : createChats (cs ++ [c]) = createChat (createChats cs) c := by
      unfold createChats
      rw [List.foldl_append]
      rfl
    rw [hstep, ih hcs]
    by_cases hn : cs.length < MAX_CHATS
    · have h0 : cs.length - MAX_CHATS = 0 := by omega
      have h1 : cs.length + 1 - MAX_CHATS = 0 := by omega
      rw [h0, List.drop_zero]
      unfold createChat
      rw [if_neg (by omega), List.length_append, List.length_singleton, h1,
        List.drop_zero]
    · push_neg at hn
      have hlen10 : (cs.drop (cs.length - MAX_CHATS)).length = MAX_CHATS := by
        rw [List.length_drop]
        omega
      have hne : cs.drop (cs.length - MAX_CHATS) ≠ [] := by
        intro hemp
        rw [hemp] at hlen10
        simp [hM] at hlen10
      obtain ⟨d, ds, hds⟩ := List.exists_cons_of_ne_nil hne
      have hsorted' :
          List.Pairwise (fun a b => a.updated_at < b.updated_at) (d :: ds) := by
        rw [← hds]
        exact hcs.sublist (List.drop_sublist _ _)
      have hlen' : MAX_CHATS ≤ (d :: ds).length := by
        rw [← hds, hlen10]
      unfold createChat
      rw [hds, if_pos hlen', removeOldest_sorted d ds hsorted']
      have hds' : ds = cs.drop (cs.length - MAX_CHATS + 1) := by
        have h2 := List.tail_drop cs (cs.length - MAX_CHATS)
        rw [hds] at h2
        simpa using h2
      rw [hds', List.length_append, List.length_singleton,
        List.drop_append_of_le_length (by omega)]
      have harith : cs.length - MAX_CHATS + 1 = cs.length + 1 - MAX_CHATS := by
        omega
      rw [harith]

/-- C7 (spec-modelled): creating 11 chats in sequence — distinct ids, fresh
records with empty message lists, strictly increasing `updated_at` — leaves
exactly 10 chats in the store, namely the 10 most recently updated (all but
the first). -/
theorem c7_chat_store_eviction (cs : List BChat)
    (hlen : cs.length = 11)
    (_hids : (cs.map fun c => c.id).Nodup)
    (_hfresh : ∀ c ∈ cs, c.messages = [] ∧ c.created_at = c.updated_at)
    (hsorted : List.Pairwise (fun a b => a.updated_at < b.updated_at) cs) :
    createChats cs = cs.drop 1 ∧ (createChats cs).length = MAX_CHATS := by
  have h := createChats_sorted cs hsorted
  rw [hlen] at h
  have h1 : createChats cs = cs.drop 1 := h
  refine ⟨h1, ?_⟩
  rw [h1, List.length_drop, hlen]
  rfl

/-- Witness for C7: eleven concrete chats with ids "0".."10" and
`updated_at = 0..10`. -/
theorem c7_chat_store_eviction_witness :
    createChats ((List.range 11).map chatFx) =
      ((List.range 11).map chatFx).drop 1 ∧
    (createChats ((List.range 11).map chatFx)).length = MAX_CHATS :=
  c7_chat_store_eviction _ (by decide) (by decide) (by decide) (by decide)

/-- Digit characters decode back to their value. -/
theorem digitVal_digitChar (d : Nat) (h : d < 10) :
    digitVal (digitChar d) = d := by
  interval_cases d <;> rfl

/-- Digit characters pass the digit test. -/
theorem isDigitChar_digitChar (d : Nat) (h : d < 10) :
    isDigitChar (digitChar d) = true := by
  interval_cases d <;> rfl

/-- Appending one digit multiplies the decoded value by ten and adds it. -/
theorem digitsVal_append_digit (l : List Char) (c : Char) :
    digitsVal (l ++ [c]) = 10 * digitsVal l + digitVal c := by
  unfold digitsVal
  rw [List.foldl_append]
  rfl

/-- The digit loop, on sufficient fuel: decodes back, emits only digits, and
is never empty. -/
theorem natToCharsAux_spec (n : Nat) : ∀ fuel : Nat, n < fuel →
    digitsVal (natToCharsAux fuel n) = n ∧
    (∀ c ∈ natToCharsAux fuel n, isDigitChar c = true) ∧
    natToCharsAux fuel n ≠ [] := by
  induction n using Nat.strong_induction_on with
  | _ n ih =>
    intro fuel hf
    cases fuel with
    | zero => omega
    | succ f =>
      have hunf : natToCharsAux (f + 1) n =
          if n < 10 then [digitChar n]
          else natToCharsAux f (n / 10) ++ [digitChar (n % 10)] := rfl
      by_cases h10 : n < 10
      · rw [hunf, if_pos h10]
        refine ⟨?_, ?_, by simp⟩
        · show 10 * 0 + digitVal (digitChar n) = n
          rw [digitVal_digitChar n h10]
          omega
        · intro c hc
          simp only [List.mem_singleton] at hc
          subst hc
          exact isDigitChar_digitChar n h10
      · have hdiv10 : n / 10 < n := Nat.div_lt_self (by omega) (by omega)
        have hfl : n / 10 < f := by omega
        obtain ⟨hv, hd, hne⟩ := ih (n / 10) hdiv10 f hfl
        rw [hunf, if_neg h10]
        refine ⟨?_, ?_, by simp⟩
        · rw [digitsVal_append_digit, hv,
            digitVal_digitChar _ (Nat.mod_lt _ (by omega))]
          have := Nat.div_add_mod n 10
          omega
        · intro c hc
          rcases List.mem_append.mp hc with h1 | h2
          · exact hd c h1
          · simp only [List.mem_singleton] at h2
            subst h2
            exact isDigitChar_digitChar _ (Nat.mod_lt _ (by omega))

/-- Decimal rendering decodes back to the value. -/
theorem digitsVal_natToChars (n : Nat) : digitsVal (natToChars n) = n :=
  (natToCharsAux_spec n (n + 1) (by omega)).1

/-- Decimal rendering emits only digit characters. -/
theorem natToChars_digits (n : Nat) :
    ∀ c ∈ natToChars n, isDigitChar c = true :=
  (natToCharsAux_spec n (n + 1) (by omega)).2.1

/-- Decimal rendering is never empty. -/
theorem natToChars_ne_nil (n : Nat) : natToChars n ≠ [] :=
  (natToCharsAux_spec n (n + 1) (by omega)).2.2

/-- A digit run followed by a comma splits there under `takeWhile`. -/
theorem takeWhile_natToChars_comma (sz : Nat) (t : List Char) :
    (natToChars sz ++ ',' :: t).takeWhile isDigitChar = natToChars sz := by
  have hgen : ∀ l : List Char, (∀ x ∈ l, isDigitChar x = true) →
      (l ++ ',' :: t).takeWhile isDigitChar = l := by
    intro l hl
    induction l with
    | nil => simp [List.takeWhile_cons, show isDigitChar ',' = false from rfl]
    | cons x xs ih =>
      have hx := hl x (List.mem_cons_self x xs)
      simp [List.takeWhile_cons, hx,
        ih fun y hy => hl y (List.mem_cons_of_mem x hy)]
  exact hgen (natToChars sz) (natToChars_digits sz)

/-- A digit run followed by a comma drops exactly there under `dropWhile`. -/
theorem dropWhile_natToChars_comma (sz : Nat) (t : List Char) :
    (natToChars sz ++ ',' :: t).dropWhile isDigitChar = ',' :: t := by
  have hgen : ∀ l : List Char, (∀ x ∈ l, isDigitChar x = true) →
      (l ++ ',' :: t).dropWhile isDigitChar = ',' :: t := by
    intro l hl
    induction l with
    | nil => simp [List.dropWhile_cons, show isDigitChar ',' = false from rfl]
    | cons x xs ih =>
      have hx := hl x (List.mem_cons_self x xs)
      simp [List.dropWhile_cons, hx,
        ih fun y hy => hl y (List.mem_cons_of_mem x hy)]
  exact hgen (natToChars sz) (natToChars_digits sz)

/-- Hex digit characters pass the hex test. -/
theorem isHexDig_hexDigitChar (m : Nat) (h : m < 16) :
    isHexDig (hexDigitChar m) = true := by
  interval_cases m <;> rfl

/-- Hex digit characters decode back to their value. -/
theorem hexVal_hexDigitChar (m : Nat) (h : m < 16) :
    hexVal (hexDigitChar m) = m := by
  interval_cases m <;> rfl

/-- String-literal recogniser: a closing quote ends the literal. -/
theorem parseStringLit_quote (t : List Char) :
    parseStringLit ('"' :: t) = some ([], t) := by
  rw [parseStringLit.eq_def]
  rfl

/-- String-literal recogniser: an ordinary character is taken literally. -/
theorem parseStringLit_lit (c : Char) (t : List Char) (h1 : c ≠ '"')
    (h2 : c ≠ '\\') :
    parseStringLit (c :: t) =
      (parseStringLit t).map (fun pr => (c :: pr.1, pr.2)) := by
  rw [parseStringLit.eq_def]
  simp [h1, h2]

/-- String-literal recogniser: a named escape decodes to its character. -/
theorem parseStringLit_esc (e u : Char) (t : List Char)
    (hu : unescapeChar e = some u) (he : e ≠ 'u') :
    parseStringLit ('\\' :: e :: t) =
      (parseStringLit t).map (fun pr => (u :: pr.1, pr.2)) := by
  rw [parseStringLit.eq_def]
  simp [he, hu]

/-- String-literal recogniser: a `\u00XX` escape decodes the hex value. -/
theorem parseStringLit_u (h3 h4 : Char) (t : List Char)
    (hh3 : isHexDig h3 = true) (hh4 : isHexDig h4 = true) :
    parseStringLit ('\\' :: 'u' :: '0' :: '0' :: h3 :: h4 :: t) =
      (parseStringLit t).map
        (fun pr => (Char.ofNat (((hexVal '0' * 16 + hexVal '0') * 16 +
          hexVal h3) * 16 + hexVal h4) :: pr.1, pr.2)) := by
  simp [parseStringLit, hh3, hh4, show isHexDig '0' = true from rfl]

/-- Round trip of the JSON string escaping: parsing right after escaping
recovers the original string and the remainder after the closing quote. -/
theorem parseStringLit_escape (s : List Char) : ∀ rest : List Char,
    parseStringLit (escapeJson s ++ '"' :: rest) = some (s, rest) := by
  induction s with
  | nil =>
    intro rest
    exact parseStringLit_quote rest
  | cons c cs ih =>
    intro rest
    have hesc : escapeJson (c :: cs) = escChar c ++ escapeJson cs := rfl
    rw [hesc, List.append_assoc]
    by_cases h1 : c = '"'
    · subst h1
      rw [show escChar '"' = ['\\', '"'] from rfl]
      simp only [List.cons_append, List.nil_append]
      rw [parseStringLit_esc '"' '"' _ rfl (by decide), ih rest]
      rfl
    by_cases h2 : c = '\\'
    · subst h2
      rw [show escChar '\\' = ['\\', '\\'] from rfl]
      simp only [List.cons_append, List.nil_append]
      rw [parseStringLit_esc '\\' '\\' _ rfl (by decide), ih rest]
      rfl
    by_cases h3 : c = '\x08'
    · subst h3
      rw [show escChar '\x08' = ['\\', 'b'] from rfl]
      simp only [List.cons_append, List.nil_append]
      rw [parseStringLit_esc 'b' '\x08' _ rfl (by decide), ih rest]
      rfl
    by_cases h4 : c = '\t'
    · subst h4
      rw [show escChar '\t' = ['\\', 't'] from rfl]
      simp only [List.cons_append, List.nil_append]
      rw [parseStringLit_esc 't' '\t' _ rfl (by decide), ih rest]
      rfl
    by_cases h5 : c = '\n'
    · subst h5
      rw [show escChar '\n' = ['\\', 'n'] from rfl]
      simp only [List.cons_append, List.nil_append]
      rw [parseStringLit_esc 'n' '\n' _ rfl (by decide), ih rest]
      rfl
    by_cases h6 : c = '\x0c'
    · subst h6
      rw [show escChar '\x0c' = ['\\', 'f'] from rfl]
      simp only [List.cons_append, List.nil_append]
      rw [parseStringLit_esc 'f' '\x0c' _ rfl (by decide), ih rest]
      rfl
    by_cases h7 : c = '\r'
    · subst h7
      rw [show escChar '\r' = ['\\', 'r'] from rfl]
      simp only [List.cons_append, List.nil_append]
      rw [parseStringLit_esc 'r' '\r' _ rfl (by decide), ih rest]
      rfl
    by_cases h8 : c.toNat < 32
    · have hesc8 : escChar c = ['\\', 'u', '0', '0',
          hexDigitChar (c.toNat / 16), hexDigitChar (c.toNat % 16)] := by
        unfold escChar
        rw [if_neg h1, if_neg h2, if_neg h3, if_neg h4, if_neg h5, if_neg h6,
          if_neg h7, if_pos h8]
      have hb1 : c.toNat / 16 < 16 := by omega
      have hb2 : c.toNat % 16 < 16 := Nat.mod_lt _ (by omega)
      rw [hesc8]
      simp only [List.cons_append, List.nil_append]
      rw [parseStringLit_u _ _ _ (isHexDig_hexDigitChar _ hb1)
        (isHexDig_hexDigitChar _ hb2), ih rest]
      have hval : ((hexVal '0' * 16 + hexVal '0') * 16 +
          hexVal (hexDigitChar (c.toNat / 16))) * 16 +
          hexVal (hexDigitChar (c.toNat % 16)) = c.toNat := by
        rw [hexVal_hexDigitChar _ hb1, hexVal_hexDigitChar _ hb2,
          show hexVal '0' = 0 from rfl]
        have := Nat.div_add_mod c.toNat 16
        omega
      simp [hval]
    · have hesc9 : escChar c = [c] := by
        unfold escChar
        rw [if_neg h1, if_neg h2, if_neg h3, if_neg h4, if_neg h5, if_neg h6,
          if_neg h7, if_neg h8]
      rw [hesc9]
      simp only [List.cons_append, List.nil_append]
      rw [parseStringLit_lit c _ h1 h2, ih rest]
      rfl

/-- Consuming an expected literal that is a head of the input. -/
theorem expectLit_append (lit s : List Char) :
    expectLit lit (lit ++ s) = some s := by
  unfold expectLit
  rw [if_pos (List.isPrefixOf_iff_prefix.mpr (List.prefix_append lit s)),
    List.drop_left]

/-- Consuming an expected literal character by character. -/
theorem expectLit_cons (c : Char) (lit s : List Char) :
    expectLit (c :: lit) (c :: s) = expectLit lit s := by
  unfold expectLit
  simp [List.isPrefixOf_cons₂, List.length_cons, List.drop_succ_cons]

/-- The empty expected literal consumes nothing. -/
theorem expectLit_nil (s : List Char) : expectLit [] s = some s := by
  unfold expectLit
  simp

/-- Lookup right after `setItem` returns the stored value. -/
theorem getItem_setItem_self (store : Storage) (k v : List Char) :
    getItem (setItem store k v) k = some v := by
  unfold getItem setItem
  simp [List.find?_cons]

/-- Parsing the serialised form of a `PdfFile` recovers it exactly. -/
theorem parsePdfJson_stringifyPdf (p : PdfFile) :
    parsePdfJson (stringifyPdf p) = some p := by
  obtain ⟨nm, sz, dt⟩ := p
  simp only [parsePdfJson, stringifyPdf, List.append_assoc, List.cons_append,
    List.nil_append,
    show ("\",\"size\":".toList : List Char) = '"' :: ",\"size\":".toList
      from rfl,
    show (",\"data\":\"".toList : List Char) = ',' :: "\"data\":\"".toList
      from rfl,
    show ("\"\x7d".toList : List Char) = '"' :: "\x7d".toList from rfl,
    show ("\x7d".toList : List Char) = ['\x7d'] from rfl,
    Option.bind_eq_bind, Option.some_bind,
    expectLit_append, expectLit_cons, expectLit_nil, parseStringLit_escape,
    takeWhile_natToChars_comma, dropWhile_natToChars_comma,
    digitsVal_natToChars]
  simp [natToChars_ne_nil]

/-- C10: the PDF cache round-trips — when the localStorage write succeeds,
loading key `k` right after `savePdfToStorage k (some p)` returns `p`, and
loading after `savePdfToStorage k null` (which removes the key) returns
null. -/
theorem c10_pdf_cache_round_trip (store : Storage) (k : List Char)
    (p : PdfFile) (w : Bool) :
    loadPdfFromStorage (savePdfToStorage store k (some p) true) k = some p ∧
    loadPdfFromStorage (savePdfToStorage store k none w) k = none := by
  constructor
  · show loadPdfFromStorage (setItem store k (stringifyPdf p)) k = some p
    unfold loadPdfFromStorage
    rw [getItem_setItem_self]
    exact parsePdfJson_stringifyPdf p
  · show loadPdfFromStorage (removeItem store k) k = none
    unfold loadPdfFromStorage
    rw [getItem_removeItem_self]

/-- Newline splitting always yields at least one segment. -/
theorem splitNl_ne_nil (s : List Char) : splitNl s ≠ [] := by
  induction s with
  | nil => simp [splitNl]
  | cons c cs ih => by_cases h : c = '\n' <;> simp [splitNl, h]

/-- A string without newlines splits into the single segment itself. -/
theorem splitNl_of_not_mem (s : List Char) (h : '\n' ∉ s) :
    splitNl s = [s] := by
  induction s with
  | nil => rfl
  | cons c cs ih =>
    have hc : c ≠ '\n' := fun he => h (he ▸ List.mem_cons_self c cs)
    have hcs : '\n' ∉ cs := fun hm => h (List.mem_cons_of_mem c hm)
    simp [splitNl, hc, ih hcs]

/-- The default-carrying last element of an append ending in a cons. -/
theorem getLastD_append_cons {α : Type _} (l₁ : List α) (x : α) (l₂ : List α)
    (d : α) : (l₁ ++ x :: l₂).getLastD d = l₂.getLastD x := by
  induction l₁ generalizing d with
  | nil => rw [List.nil_append]; exact List.getLastD_cons d x l₂
  | cons a as ih => rw [List.cons_append, List.getLastD_cons]; exact ih a

/-- The trailing fragment produced by splitting contains no newline. -/
theorem nl_not_mem_last_splitNl (s : List Char) :
    '\n' ∉ (splitNl s).getLastD [] := by
  induction s with
  | nil => simp [splitNl]
  | cons c cs ih =>
    obtain ⟨x, xs, hxs⟩ := List.exists_cons_of_ne_nil (splitNl_ne_nil cs)
    by_cases h : c = '\n'
    · simp only [splitNl, if_pos h, List.getLastD_cons]
      exact ih
    · simp only [splitNl, if_neg h, hxs] at ih ⊢
      cases xs with
      | nil =>
        simp only [List.headI_cons, List.tail_cons, List.getLastD_cons] at ih ⊢
        simp only [List.getLastD_nil] at ih ⊢
        intro hm
        rcases List.mem_cons.mp hm with h1 | h2
        · exact h h1.symm
        · exact ih h2
      | cons y ys =>
        simp only [List.headI_cons, List.tail_cons, List.getLastD_cons]
          at ih ⊢
        exact ih

/-- Splitting an append: all full segments of the left part, one merged
segment at the seam, and the segments of the right part. -/
theorem splitNl_append (a b : List Char) :
    splitNl (a ++ b) = (splitNl a).dropLast ++
      ((splitNl a).getLastD [] ++ (splitNl b).headI) :: (splitNl b).tail := by
  induction a with
  | nil =>
    obtain ⟨x, xs, hxs⟩ := List.exists_cons_of_ne_nil (splitNl_ne_nil b)
    simp [splitNl, hxs]
  | cons c cs ih =>
    obtain ⟨x, xs, hxs⟩ := List.exists_cons_of_ne_nil (splitNl_ne_nil cs)
    rw [List.cons_append]
    by_cases h : c = '\n'
    · rw [show splitNl (c :: (cs ++ b)) = [] :: splitNl (cs ++ b) from by
        simp [splitNl, h]]
      rw [show splitNl (c :: cs) = [] :: splitNl cs from by simp [splitNl, h]]
      rw [ih, hxs]
      simp only [List.dropLast_cons₂, List.getLastD_cons, List.cons_append]
    · rw [show splitNl (c :: (cs ++ b)) =
          (c :: (splitNl (cs ++ b)).headI) :: (splitNl (cs ++ b)).tail from by
        simp [splitNl, h]]
      rw [show splitNl (c :: cs) =
          (c :: (splitNl cs).headI) :: (splitNl cs).tail from by
        simp [splitNl, h]]
      rw [ih, hxs]
      cases xs with
      | nil =>
        simp [List.getLastD_cons]
      | cons y ys =>
        simp [List.dropLast_cons₂, List.getLastD_cons]

/-- Replacing the buffer commutes with one line step (the step never reads
or writes `buffer`). -/
theorem processLine_withBuffer (parse : ParseFn) (times : Nat → Int)
    (st : SSEState) (b : List Char) (l : List Char) :
    processLine parse times (st.withBuffer b) l =
      (processLine parse times st l).withBuffer b := by
  unfold processLine
  dsimp only [SSEState.withBuffer]
  repeat' split
  all_goals dsimp only [SSERun.withBuffer, SSEState.withBuffer]

/-- One line step preserves the buffer of the carried state. -/
theorem processLine_bufferOf (parse : ParseFn) (times : Nat → Int)
    (st : SSEState) (l : List Char) :
    (processLine parse times st l).bufferOf = st.buffer := by
  unfold processLine
  repeat' split
  all_goals rfl

/-- Replacing the buffer commutes with processing a list of lines. -/
theorem processLines_withBuffer (parse : ParseFn) (times : Nat → Int)
    (ls : List (List Char)) :
    ∀ (st : SSEState) (b : List Char),
    processLines parse times (st.withBuffer b) ls =
      (processLines parse times st ls).withBuffer b := by
  induction ls with
  | nil => intro st b; rfl
  | cons l ls ih =>
    intro st b
    unfold processLines
    rw [processLine_withBuffer]
    cases processLine parse times st l with
    | ok st' =>
      dsimp only [SSERun.withBuffer]
      exact ih st' b
    | thrown m st' => rfl

/-- Processing a list of lines preserves the buffer of the carried state. -/
theorem processLines_bufferOf (parse : ParseFn) (times : Nat → Int)
    (ls : List (List Char)) :
    ∀ st : SSEState, (processLines parse times st ls).bufferOf = st.buffer := by
  induction ls with
  | nil => intro st; rfl
  | cons l ls ih =>
    intro st
    unfold processLines
    cases hpl : processLine parse times st l with
    | ok st' =>
      have hb := processLine_bufferOf parse times st l
      rw [hpl] at hb
      dsimp only [SSERun.bufferOf] at hb
      rw [ih st', hb]
    | thrown m st' =>
      have hb := processLine_bufferOf parse times st l
      rw [hpl] at hb
      exact hb

/-- Processing an appended list of lines is processing both parts in
sequence. -/
theorem processLines_append (parse : ParseFn) (times : Nat → Int)
    (l₁ l₂ : List (List Char)) :
    ∀ st : SSEState, processLines parse times st (l₁ ++ l₂) =
      (match processLines parse times st l₁ with
       | .ok st' => processLines parse times st' l₂
       | .thrown m st' => .thrown m st') := by
  induction l₁ with
  | nil => intro st; rfl
  | cons l ls ih =>
    intro st
    rw [List.cons_append]
    show (match processLine parse times st l with
          | .ok st' => processLines parse times st' (ls ++ l₂)
          | .thrown m st' => .thrown m st') =
        (match (match processLine parse times st l with
                | .ok st' => processLines parse times st' ls
                | .thrown m st' => .thrown m st') with
         | .ok st' => processLines parse times st' l₂
         | .thrown m st' => .thrown m st')
    cases processLine parse times st l with
    | ok st' =>
      dsimp only
      exact ih st'
    | thrown m st' => rfl

/-- One chunk step sets the buffer to the trailing fragment of the split. -/
theorem processChunk_bufferOf (parse : ParseFn) (times : Nat → Int)
    (st : SSEState) (c : List Char) :
    (processChunk parse times st c).bufferOf =
      (splitNl (st.buffer ++ c)).getLastD [] := by
  unfold processChunk
  rw [processLines_bufferOf]

/-- Merging two adjacent chunks: processing `c₁ ++ c₂` in one read step is
processing `c₁` then `c₂`, except that a throw during the `c₁` part carries
the buffer already advanced to the final trailing fragment (the buffer is
never read again after a throw). -/
theorem processChunk_merge (parse : ParseFn) (times : Nat → Int)
    (st : SSEState) (c₁ c₂ : List Char) :
    processChunk parse times st (c₁ ++ c₂) =
      (match processChunk parse times st c₁ with
       | .ok st₁ => processChunk parse times st₁ c₂
       | .thrown m st₁ =>
         .thrown m (st₁.withBuffer
           ((splitNl (st.buffer ++ (c₁ ++ c₂))).getLastD []))) := by
  have hsplit : splitNl (st.buffer ++ (c₁ ++ c₂)) =
      (splitNl (st.buffer ++ c₁)).dropLast ++
        (((splitNl (st.buffer ++ c₁)).getLastD [] ++ (splitNl c₂).headI) ::
          (splitNl c₂).tail) := by
    rw [← List.append_assoc, splitNl_append]
  have hgF : (splitNl (st.buffer ++ (c₁ ++ c₂))).getLastD [] =
      (splitNl c₂).tail.getLastD
        ((splitNl (st.buffer ++ c₁)).getLastD [] ++ (splitNl c₂).headI) := by
    rw [hsplit, getLastD_append_cons]
  have hdrop : (splitNl (st.buffer ++ (c₁ ++ c₂))).dropLast =
      (splitNl (st.buffer ++ c₁)).dropLast ++
        (((splitNl (st.buffer ++ c₁)).getLastD [] ++ (splitNl c₂).headI) ::
          (splitNl c₂).tail).dropLast := by
    rw [hsplit, List.dropLast_append_cons]
  unfold processChunk
  rw [hgF, hdrop, processLines_append]
  have hwb : ∀ b : List Char,
      ({ st with buffer := b } : SSEState) =
        ({ st with buffer := (splitNl (st.buffer ++ c₁)).getLastD [] } :
          SSEState).withBuffer b :=
    fun _ => rfl
  rw [hwb ((splitNl c₂).tail.getLastD
      ((splitNl (st.buffer ++ c₁)).getLastD [] ++ (splitNl c₂).headI)),
    processLines_withBuffer]
  cases hp1 : processLines parse times
      { st with buffer := (splitNl (st.buffer ++ c₁)).getLastD [] }
      (splitNl (st.buffer ++ c₁)).dropLast with
  | ok st₁ =>
    dsimp only [SSERun.withBuffer]
    have hb1 : st₁.buffer = (splitNl (st.buffer ++ c₁)).getLastD [] := by
      have := processLines_bufferOf parse times
        (splitNl (st.buffer ++ c₁)).dropLast
        { st with buffer := (splitNl (st.buffer ++ c₁)).getLastD [] }
      rw [hp1] at this
      exact this
    have hnl : '\n' ∉ (splitNl (st.buffer ++ c₁)).getLastD [] :=
      nl_not_mem_last_splitNl _
    have hsplit2 : splitNl (st₁.buffer ++ c₂) =
        ((splitNl (st.buffer ++ c₁)).getLastD [] ++ (splitNl c₂).headI) ::
          (splitNl c₂).tail := by
      rw [hb1, splitNl_append, splitNl_of_not_mem _ hnl]
      simp [List.getLastD_cons]
    rw [hsplit2, List.getLastD_cons]
    rfl
  | thrown m st₁ =>
    dsimp only [SSERun.withBuffer]

/-- The whole read loop over a chunk list has the same observable core (all
state except the never-again-read buffer) as one read of the concatenated
stream. -/
theorem processChunks_core_join (parse : ParseFn) (times : Nat → Int) :
    ∀ (cs : List (List Char)) (st : SSEState), '\n' ∉ st.buffer →
    (processChunks parse times st cs).core =
      (processChunk parse times st cs.flatten).core := by
  intro cs
  induction cs with
  | nil =>
    intro st hb
    show (SSERun.ok st).core = (processChunk parse times st [].flatten).core
    unfold processChunk
    rw [show ([] : List (List Char)).flatten = [] from rfl, List.append_nil,
      splitNl_of_not_mem _ hb]
    rfl
  | cons c cs ih =>
    intro st hb
    rw [show (c :: cs).flatten = c ++ cs.flatten from rfl, processChunk_merge]
    show (match processChunk parse times st c with
          | .ok st₁ => processChunks parse times st₁ cs
          | .thrown m st₁ => .thrown m st₁).core = _
    cases hpc : processChunk parse times st c with
    | ok st₁ =>
      have hb₁ : '\n' ∉ st₁.buffer := by
        have hbuf := processChunk_bufferOf parse times st c
        rw [hpc] at hbuf
        dsimp only [SSERun.bufferOf] at hbuf
        rw [hbuf]
        exact nl_not_mem_last_splitNl _
      exact ih st₁ hb₁
    | thrown m st₁ => rfl

/-- Runs with the same observable core flush to the same output. -/
theorem streamSSEBody_eq_of_core_eq (parse : ParseFn) (times : Nat → Int)
    (cs₁ cs₂ : List (List Char))
    (h : (processChunks parse times initSSEState cs₁).core =
      (processChunks parse times initSSEState cs₂).core) :
    streamSSEBody parse times cs₁ = streamSSEBody parse times cs₂ := by
  unfold streamSSEBody
  cases h₁ : processChunks parse times initSSEState cs₁ with
  | ok st₁ =>
    cases h₂ : processChunks parse times initSSEState cs₂ with
    | ok st₂ =>
      rw [h₁, h₂] at h
      simp only [SSERun.core, SSEState.core, Sum.inl.injEq,
        Prod.mk.injEq] at h
      obtain ⟨_, ha, hc, _⟩ := h
      simp [flushCalls, ha, hc]
    | thrown m₂ st₂ =>
      rw [h₁, h₂] at h
      simp [SSERun.core] at h
  | thrown m₁ st₁ =>
    cases h₂ : processChunks parse times initSSEState cs₂ with
    | ok st₂ =>
      rw [h₁, h₂] at h
      simp [SSERun.core] at h
    | thrown m₂ st₂ =>
      rw [h₁, h₂] at h
      simp only [SSERun.core, SSEState.core, Sum.inr.injEq,
        Prod.mk.injEq] at h
      obtain ⟨hm, _, ha, hc, _⟩ := h
      simp [flushCalls, ha, hc, hm]

/-- The streamed output depends only on the concatenation of the decoded
chunks. -/
theorem streamSSEBody_flatten (parse : ParseFn) (times : Nat → Int)
    (cs₁ cs₂ : List (List Char)) (h : cs₁.flatten = cs₂.flatten) :
    streamSSEBody parse times cs₁ = streamSSEBody parse times cs₂ := by
  apply streamSSEBody_eq_of_core_eq
  rw [processChunks_core_join parse times cs₁ initSSEState
      (by simp [initSSEState]),
    processChunks_core_join parse times cs₂ initSSEState
      (by simp [initSSEState]), h]

/-- C1: the accumulator is chunk-boundary-independent — for any two chunk
sequences whose concatenations decode to the same full SSE payload, the
final accumulated text is identical, because the incomplete trailing line
fragment is retained in the buffer across reads and only complete
newline-terminated lines are processed. -/
theorem c1_chunk_boundary_independent (parse : ParseFn) (times : Nat → Int)
    (cs₁ cs₂ : List (List Char)) (h : cs₁.flatten = cs₂.flatten) :
    (streamSSEBody parse times cs₁).accumulated =
      (streamSSEBody parse times cs₂).accumulated := by
  rw [streamSSEBody_flatten parse times cs₁ cs₂ h]

/-- Witness for C1: the fixture stream delivered whole versus cut mid-line
at byte 10. -/
theorem c1_chunk_boundary_independent_witness :
    (streamSSEBody parseFixture timesFixture chunksAFx).accumulated =
      (streamSSEBody parseFixture timesFixture chunksBFx).accumulated :=
  c1_chunk_boundary_independent parseFixture timesFixture chunksAFx chunksBFx
    (by decide)

end LatecApp
